import Mathlib

/-!
Shallow embedding of `TransactionCoordinatorCatalog`
(src/mongo/db/transaction_coordinator_catalog.cpp) and proofs about its
insert / get / getLatestOnSession / remove / exitStepUp / join operations.

The catalog maps a logical session id to a per-session map from transaction
number to a shared coordinator handle, gated by a step-up completion status
and drained by `join`.  Mutexes serialize the public operations, so each
operation is modelled as a pure function from the catalog state (plus its
arguments) to an outcome: a new state, a fatal `invariant` failure, a
`uassert`-style error carrying the state at the throw point, or a block on a
condition variable that cannot yet make progress.
-/

namespace TxnCatalog

/-- `TxnNumber`: the per-session transaction number. -/
abbrev TxnNumber := Nat

/-- `LogicalSessionId`: an opaque comparable session key, modelled as `Nat`. -/
abbrev LogicalSessionId := Nat

/-- `Status`: OK or an error with a numeric code. -/
inductive Status where
  | ok : Status
  | error : Nat → Status
deriving DecidableEq, Repr

/-- `Status::isOK()`. -/
def Status.isOK : Status → Bool
  | .ok => true
  | .error _ => false

/-- Observable state of a `TransactionCoordinator` handle as the catalog sees
it: an identity for the shared handle, plus whether `getDecision()`'s future
`isReady()` and, when ready, the decision status returned by `getNoThrow()`.
The internal two-phase-commit machine is outside the catalog. -/
structure TransactionCoordinator where
  cid : Nat
  decisionReady : Bool
  decisionStatus : Status
deriving DecidableEq, Repr

/-- Modelled from the spec: the per-session map type is declared in
`transaction_coordinator_catalog.h`, which is not in the source tree.  The
spec states the per-session entries are ordered by transaction number so that
"latest" is the numerically greatest key and the code reads it at `begin()`,
i.e. a `std::map` with a descending (`std::greater`) comparator.  Modelled as
an association list kept strictly descending by key. -/
abbrev TxnMap := List (TxnNumber × TransactionCoordinator)

/-- `std::map::find` on the per-session map. -/
def txnFind : TxnMap → TxnNumber → Option TransactionCoordinator
  | [], _ => none
  | (k, v) :: rest, t => if k = t then some v else txnFind rest t

/-- `m[t] = c` on the descending `std::map`: insert keeping keys strictly
descending, overwriting an equal key. -/
def txnSet : TxnMap → TxnNumber → TransactionCoordinator → TxnMap
  | [], t, c => [(t, c)]
  | (k, v) :: rest, t, c =>
    if t > k then (t, c) :: (k, v) :: rest
    else if t = k then (t, c) :: rest
    else (k, v) :: txnSet rest t c

/-- `std::map::erase` of the entry for key `t` (at most one under the map
invariant). -/
def txnErase : TxnMap → TxnNumber → TxnMap
  | [], _ => []
  | (k, v) :: rest, t => if k = t then rest else (k, v) :: txnErase rest t

/-- Modelled from the spec: the outer `LogicalSessionIdMap` (a hash map from
session id to per-session map) is declared in the missing header; it is
unordered, so an association list with unique keys is a faithful model. -/
abbrev SessionMap := List (LogicalSessionId × TxnMap)

/-- `find` on the outer session map. -/
def sessFind : SessionMap → LogicalSessionId → Option TxnMap
  | [], _ => none
  | (k, v) :: rest, l => if k = l then some v else sessFind rest l

/-- `m[l] = inner` on the outer session map: replace the existing entry or
append a new one. -/
def sessSet : SessionMap → LogicalSessionId → TxnMap → SessionMap
  | [], l, inner => [(l, inner)]
  | (k, v) :: rest, l, inner =>
    if k = l then (l, inner) :: rest else (k, v) :: sessSet rest l inner

/-- `erase` of session `l` from the outer session map. -/
def sessErase : SessionMap → LogicalSessionId → SessionMap
  | [], _ => []
  | (k, v) :: rest, l => if k = l then rest else (k, v) :: sessErase rest l

/-- The mutable state of one `TransactionCoordinatorCatalog` instance:
`_coordinatorsBySession`, `_coordinatorsBySessionDefunct`,
`_stepUpCompletionStatus`, plus the set of completion continuations that
`insert` has registered via `coordinator->onCompletion().getAsync(...)`
(each continuation captures exactly the `(lsid, txnNumber)` key it was
attached for). -/
structure CatalogState where
  coordinatorsBySession : SessionMap
  coordinatorsBySessionDefunct : SessionMap
  stepUpCompletionStatus : Option Status
  completionContinuations : List (LogicalSessionId × TxnNumber)
deriving DecidableEq, Repr

/-- A freshly constructed catalog: empty maps, unresolved step-up gate, no
continuations. -/
def initialCatalog : CatalogState :=
  { coordinatorsBySession := []
    coordinatorsBySessionDefunct := []
    stepUpCompletionStatus := none
    completionContinuations := [] }

/-- Modelled from the spec: the `OperationContext` interruption state used by
`opCtx->waitForConditionOrInterrupt` (defined outside this file's source).
Per the spec, a wait on the step-up gate unblocks with a cancellation error
when the caller's operation is cancelled; `interruptStatus = ok` means the
caller is not cancelled. -/
structure OperationContext where
  interruptStatus : Status
deriving DecidableEq, Repr

/-- Outcome of one catalog operation: a fatal `invariant` failure, a block on
a condition variable with no progress possible, a thrown error (`uassert` or
interruption) carrying the catalog state at the throw point, or a normal
result. -/
inductive Outcome (α : Type) where
  | fatal : Outcome α
  | blocked : Outcome α
  | err : Status → CatalogState → Outcome α
  | ok : α → Outcome α
deriving DecidableEq, Repr

/-- The two-level lookup of `(lsid, txnNumber)` in a session map, the way the
source performs it: find the session, then find the transaction number in the
per-session map. -/
def outerFind (om : SessionMap) (l : LogicalSessionId) (t : TxnNumber) :
    Option TransactionCoordinator :=
  match sessFind om l with
  | none => none
  | some m => txnFind m t

/-- Lookup of `(lsid, txnNumber)` in `_coordinatorsBySession`. -/
def primaryFind (s : CatalogState) (l : LogicalSessionId) (t : TxnNumber) :
    Option TransactionCoordinator :=
  outerFind s.coordinatorsBySession l t

/-- Lookup of `(lsid, txnNumber)` in `_coordinatorsBySessionDefunct`. -/
def defunctFind (s : CatalogState) (l : LogicalSessionId) (t : TxnNumber) :
    Option TransactionCoordinator :=
  outerFind s.coordinatorsBySessionDefunct l t

/-- `_waitForStepUpToComplete`: wait until `_stepUpCompletionStatus` is set
(the wait is interruptible by the caller's cancellation), then
`uassertStatusOK(*_stepUpCompletionStatus)`. -/
def waitForStepUpToComplete (s : CatalogState) (opCtx : OperationContext) :
    Outcome Unit :=
  match s.stepUpCompletionStatus with
  | some st => if st.isOK then .ok () else .err st s
  | none =>
    match opCtx.interruptStatus with
    | .error c => .err (.error c) s
    | .ok => .blocked

/-- The body of `insert` after the step-up gate: look up (default-creating)
the per-session map, `invariant` that no entry exists for the transaction
number, register the completion continuation for exactly this key, and store
the coordinator. -/
def insertLocked (s : CatalogState) (lsid : LogicalSessionId)
    (txnNumber : TxnNumber) (coordinator : TransactionCoordinator) :
    Outcome CatalogState :=
  let coordinatorsBySession := (sessFind s.coordinatorsBySession lsid).getD []
  if (txnFind coordinatorsBySession txnNumber).isSome then .fatal
  else
    .ok { s with
      completionContinuations := (lsid, txnNumber) :: s.completionContinuations
      coordinatorsBySession :=
        sessSet s.coordinatorsBySession lsid
          (txnSet coordinatorsBySession txnNumber coordinator) }

/-- `TransactionCoordinatorCatalog::insert`: unless `forStepUp`, first wait on
the step-up gate; then run the locked insert body. -/
def insert (s : CatalogState) (opCtx : OperationContext)
    (lsid : LogicalSessionId) (txnNumber : TxnNumber)
    (coordinator : TransactionCoordinator) (forStepUp : Bool) :
    Outcome CatalogState :=
  if forStepUp then insertLocked s lsid txnNumber coordinator
  else
    match waitForStepUpToComplete s opCtx with
    | .fatal => .fatal
    | .blocked => .blocked
    | .err e t => .err e t
    | .ok _ => insertLocked s lsid txnNumber coordinator

/-- `TransactionCoordinatorCatalog::get`: wait on the step-up gate; return the
primary-map entry if present; otherwise, when the `doNotForgetCoordinator`
fail point is on, fall back to the defunct catalog; otherwise not-found. -/
def get (s : CatalogState) (opCtx : OperationContext)
    (lsid : LogicalSessionId) (txnNumber : TxnNumber)
    (doNotForgetCoordinator : Bool) :
    Outcome (Option TransactionCoordinator) :=
  match waitForStepUpToComplete s opCtx with
  | .fatal => .fatal
  | .blocked => .blocked
  | .err e t => .err e t
  | .ok _ =>
    match primaryFind s lsid txnNumber with
    | some c => .ok (some c)
    | none =>
      if doNotForgetCoordinator then .ok (defunctFind s lsid txnNumber)
      else .ok none

/-- `TransactionCoordinatorCatalog::getLatestOnSession`: wait on the step-up
gate; not-found when the session is absent; `invariant` that a present
session's map is nonempty; return `begin()` of the descending map, the entry
with the greatest transaction number. -/
def getLatestOnSession (s : CatalogState) (opCtx : OperationContext)
    (lsid : LogicalSessionId) :
    Outcome (Option (TxnNumber × TransactionCoordinator)) :=
  match waitForStepUpToComplete s opCtx with
  | .fatal => .fatal
  | .blocked => .blocked
  | .err e t => .err e t
  | .ok _ =>
    match sessFind s.coordinatorsBySession lsid with
    | none => .ok none
    | some coordinatorsForSession =>
      match coordinatorsForSession with
      | [] => .fatal
      | e :: _ => .ok (some e)

/-- Result of `remove`: the new state and whether
`_noActiveCoordinatorsCv.notify_all()` was signalled. -/
structure RemoveResult where
  state : CatalogState
  signaledNoActiveCoordinators : Bool
deriving DecidableEq, Repr

/-- `TransactionCoordinatorCatalog::remove`: if the key is present, optionally
(fail point on) `invariant` the decision future is resolved and retain a
successfully decided coordinator in the defunct catalog, then erase the entry
and prune the emptied per-session map; finally signal the drain condition
variable when the primary map is empty. -/
def remove (s : CatalogState) (lsid : LogicalSessionId)
    (txnNumber : TxnNumber) (doNotForgetCoordinator : Bool) :
    Outcome RemoveResult :=
  let afterErase : Outcome CatalogState :=
    match sessFind s.coordinatorsBySession lsid with
    | none => .ok s
    | some coordinatorsForSession =>
      match txnFind coordinatorsForSession txnNumber with
      | none => .ok s
      | some coordinator =>
        let retained : Outcome CatalogState :=
          if doNotForgetCoordinator then
            if coordinator.decisionReady then
              if coordinator.decisionStatus.isOK then
                .ok { s with
                  coordinatorsBySessionDefunct :=
                    sessSet s.coordinatorsBySessionDefunct lsid
                      (txnSet ((sessFind s.coordinatorsBySessionDefunct lsid).getD [])
                        txnNumber coordinator) }
              else .ok s
            else .fatal
          else .ok s
        match retained with
        | .fatal => .fatal
        | .blocked => .blocked
        | .err e t => .err e t
        | .ok s₁ =>
          let erased := txnErase coordinatorsForSession txnNumber
          .ok { s₁ with
            coordinatorsBySession :=
              if erased.isEmpty then sessErase s₁.coordinatorsBySession lsid
              else sessSet s₁.coordinatorsBySession lsid erased }
  match afterErase with
  | .fatal => .fatal
  | .blocked => .blocked
  | .err e t => .err e t
  | .ok s₂ =>
    .ok { state := s₂
          signaledNoActiveCoordinators := s₂.coordinatorsBySession.isEmpty }

/-- `TransactionCoordinatorCatalog::exitStepUp`: `invariant` the gate was not
already resolved, then store the status and wake the gate waiters. -/
def exitStepUp (s : CatalogState) (status : Status) : Outcome CatalogState :=
  match s.stepUpCompletionStatus with
  | some _ => .fatal
  | none => .ok { s with stepUpCompletionStatus := some status }

/-- The interval of `join`'s periodic diagnostic wake-up
(`stdx::chrono::seconds{5}`). -/
def joinWaitSeconds : Nat := 5

/-- `_toString`: the point-in-time dump of every session with its transaction
numbers. -/
def catalogToString (s : CatalogState) : String :=
  "[" ++
    String.join (s.coordinatorsBySession.map (fun p =>
      "\n" ++ toString p.1 ++ ": " ++
        String.join (p.2.map (fun q => toString q.1 ++ " ")))) ++
  "]"

/-- One observation of `join`'s wait loop. -/
inductive JoinObservation where
  | returns : JoinObservation
  | waitsAndLogs : Nat → String → JoinObservation
deriving DecidableEq, Repr

/-- One iteration of `join`'s loop: the `wait_for` predicate
`_coordinatorsBySession.empty()` is checked; if it holds `join` returns,
otherwise the wait times out after `joinWaitSeconds` seconds and logs the
catalog dump before waiting again. -/
def joinCheck (s : CatalogState) : JoinObservation :=
  if s.coordinatorsBySession.isEmpty then .returns
  else .waitsAndLogs joinWaitSeconds (catalogToString s)

/-- Completion of the coordinator inserted for key `k`: the continuation that
`insert` attached (capturing exactly `k`) fires once, calling
`remove(k.1, k.2)`. -/
def completeCoordinator (s : CatalogState) (k : LogicalSessionId × TxnNumber)
    (doNotForgetCoordinator : Bool) : Outcome RemoveResult :=
  remove { s with completionContinuations := s.completionContinuations.erase k }
    k.1 k.2 doNotForgetCoordinator

/-- The primary map after `remove` erases a present key whose session map was
`m`: the per-session entry is erased, and the session itself is erased when
its map became empty. -/
def removeErasedOuter (s : CatalogState) (l : LogicalSessionId) (m : TxnMap)
    (t : TxnNumber) : SessionMap :=
  if (txnErase m t).isEmpty then sessErase s.coordinatorsBySession l
  else sessSet s.coordinatorsBySession l (txnErase m t)

/-- The defunct catalog after `remove` of a present coordinator `c`: retained
exactly when the fail point is on and `c`'s decision resolved successfully. -/
def removeRetainedDefunct (s : CatalogState) (l : LogicalSessionId)
    (t : TxnNumber) (c : TransactionCoordinator) (fp : Bool) : SessionMap :=
  if fp && (c.decisionReady && c.decisionStatus.isOK) then
    sessSet s.coordinatorsBySessionDefunct l
      (txnSet ((sessFind s.coordinatorsBySessionDefunct l).getD []) t c)
  else s.coordinatorsBySessionDefunct

/-- The per-session map's `std::map` representation invariant: keys strictly
descending. -/
def TxnMapSorted (m : TxnMap) : Prop :=
  List.Pairwise (fun a b => b.1 < a.1) m

instance (m : TxnMap) : Decidable (TxnMapSorted m) :=
  inferInstanceAs (Decidable (List.Pairwise _ m))

/-- Every `(session, txnNumber)` key currently present in the primary map. -/
def allKeys (s : CatalogState) : List (LogicalSessionId × TxnNumber) :=
  s.coordinatorsBySession.flatMap (fun p => p.2.map (fun q => (p.1, q.1)))

/-- Representation invariant of the catalog's primary map: session keys are
unique, each per-session map is strictly descending, and no per-session map
is empty (empty ones are pruned by `remove`). -/
structure WF (s : CatalogState) : Prop where
  outerNodup : List.Pairwise (fun a b => a.1 ≠ b.1) s.coordinatorsBySession
  innerSorted : ∀ p ∈ s.coordinatorsBySession, TxnMapSorted p.2
  innerNonempty : ∀ p ∈ s.coordinatorsBySession, p.2 ≠ []

/-- One state-mutating catalog operation completing normally (`get`,
`getLatestOnSession` and `join` do not mutate the catalog). -/
inductive Step : CatalogState → CatalogState → Prop where
  | ofInsert (s : CatalogState) (opCtx : OperationContext)
      (lsid : LogicalSessionId) (txnNumber : TxnNumber)
      (c : TransactionCoordinator) (forStepUp : Bool) (s' : CatalogState) :
      insert s opCtx lsid txnNumber c forStepUp = .ok s' → Step s s'
  | ofRemove (s : CatalogState) (lsid : LogicalSessionId)
      (txnNumber : TxnNumber) (fp : Bool) (r : RemoveResult) :
      remove s lsid txnNumber fp = .ok r → Step s r.state
  | ofExitStepUp (s : CatalogState) (st : Status) (s' : CatalogState) :
      exitStepUp s st = .ok s' → Step s s'
  | ofComplete (s : CatalogState) (k : LogicalSessionId × TxnNumber)
      (fp : Bool) (r : RemoveResult) :
      completeCoordinator s k fp = .ok r → Step s r.state

/-- States reachable from a freshly constructed catalog by any sequence of
normally-completing operations. -/
def Reachable (s : CatalogState) : Prop :=
  Relation.ReflTransGen Step initialCatalog s

/-- A coordinator whose decision resolved successfully. -/
def coordA : TransactionCoordinator := ⟨0, true, .ok⟩

/-- A second coordinator whose decision resolved successfully. -/
def coordB : TransactionCoordinator := ⟨1, true, .ok⟩

/-- A coordinator whose decision resolved with an error. -/
def coordFailed : TransactionCoordinator := ⟨2, true, .error 5⟩

/-- A coordinator whose decision future has not resolved. -/
def coordPending : TransactionCoordinator := ⟨3, false, .ok⟩

/-- An operation context that is not interrupted. -/
def opCtxOk : OperationContext := ⟨.ok⟩

/-- An operation context whose caller was cancelled. -/
def opCtxCancelled : OperationContext := ⟨.error 11⟩

/-- A catalog whose step-up completed successfully and holds no entries. -/
def catalogOpen : CatalogState :=
  { initialCatalog with stepUpCompletionStatus := some .ok }

/-- A catalog whose step-up recovery failed. -/
def catalogFailed : CatalogState :=
  { initialCatalog with stepUpCompletionStatus := some (.error 70) }

/-- A step-up-complete catalog holding one coordinator at key `(0, 1)`. -/
def catalogWithEntry : CatalogState :=
  { coordinatorsBySession := [(0, [(1, coordA)])]
    coordinatorsBySessionDefunct := []
    stepUpCompletionStatus := some .ok
    completionContinuations := [(0, 1)] }

/-- A step-up-complete catalog holding one error-decided coordinator at key
`(0, 1)`. -/
def catalogWithFailedCoord : CatalogState :=
  { coordinatorsBySession := [(0, [(1, coordFailed)])]
    coordinatorsBySessionDefunct := []
    stepUpCompletionStatus := some .ok
    completionContinuations := [(0, 1)] }

/-- A step-up-complete catalog holding one coordinator at key `(0, 1)` whose
decision future has not resolved. -/
def catalogWithPending : CatalogState :=
  { coordinatorsBySession := [(0, [(1, coordPending)])]
    coordinatorsBySessionDefunct := []
    stepUpCompletionStatus := some .ok
    completionContinuations := [(0, 1)] }

/-- A step-up-complete catalog where session 7 holds transaction numbers
3, 2, 1 (the state reached by inserting them in any order). -/
def catalog132 : CatalogState :=
  { coordinatorsBySession := [(7, [(3, coordB), (2, coordA), (1, coordA)])]
    coordinatorsBySessionDefunct := []
    stepUpCompletionStatus := some .ok
    completionContinuations := [(7, 1), (7, 3), (7, 2)] }

theorem txnFind_eq_none_iff (m : TxnMap) (t : TxnNumber) :
    txnFind m t = none ↔ ∀ q ∈ m, q.1 ≠ t := by
  induction m with
  | nil => simp [txnFind]
  | cons hd tl ih =>
    obtain ⟨k, v⟩ := hd
    by_cases h : k = t <;> simp [txnFind, h, ih]

theorem txnFind_mem {m : TxnMap} {t : TxnNumber} {c : TransactionCoordinator}
    (h : txnFind m t = some c) : (t, c) ∈ m := by
  induction m with
  | nil => simp [txnFind] at h
  | cons hd tl ih =>
    obtain ⟨k, v⟩ := hd
    by_cases hk : k = t
    · subst hk
      simp [txnFind] at h
      subst h
      exact List.mem_cons_self _ _
    · simp [txnFind, hk] at h
      exact List.mem_cons_of_mem _ (ih h)

theorem txnFind_txnSet_self (m : TxnMap) (t : TxnNumber)
    (c : TransactionCoordinator) : txnFind (txnSet m t c) t = some c := by
  induction m with
  | nil => simp [txnSet, txnFind]
  | cons hd tl ih =>
    obtain ⟨k, v⟩ := hd
    simp only [txnSet]
    split_ifs with h1 h2
    · simp [txnFind]
    · simp [txnFind]
    · have hk : ¬ k = t := fun hh => h2 hh.symm
      simp [txnFind, hk, ih]

theorem txnFind_txnSet_ne (m : TxnMap) (t t' : TxnNumber)
    (c : TransactionCoordinator) (h : t' ≠ t) :
    txnFind (txnSet m t c) t' = txnFind m t' := by
  have hts : ¬ t = t' := fun hh => h hh.symm
  induction m with
  | nil => simp [txnSet, txnFind, hts]
  | cons hd tl ih =>
    obtain ⟨k, v⟩ := hd
    simp only [txnSet]
    split_ifs with h1 h2
    · simp only [txnFind]
      rw [if_neg hts]
    · subst h2
      simp only [txnFind]
      rw [if_neg hts, if_neg hts]
    · simp only [txnFind]
      by_cases hk : k = t'
      · rw [if_pos hk, if_pos hk]
      · rw [if_neg hk, if_neg hk, ih]

theorem txnFind_txnSet (m : TxnMap) (t t' : TxnNumber)
    (c : TransactionCoordinator) :
    txnFind (txnSet m t c) t' = if t' = t then some c else txnFind m t' := by
  by_cases h : t' = t
  · subst h
    rw [if_pos rfl, txnFind_txnSet_self]
  · rw [if_neg h, txnFind_txnSet_ne m t t' c h]

theorem txnSet_ne_nil (m : TxnMap) (t : TxnNumber) (c : TransactionCoordinator) :
    txnSet m t c ≠ [] := by
  cases m with
  | nil => simp [txnSet]
  | cons hd tl =>
    obtain ⟨k, v⟩ := hd
    simp only [txnSet]
    split_ifs <;> simp

theorem txnSet_subset {m : TxnMap} {t : TxnNumber} {c : TransactionCoordinator} :
    ∀ x ∈ txnSet m t c, x = (t, c) ∨ x ∈ m := by
  induction m with
  | nil => simp [txnSet]
  | cons hd tl ih =>
    obtain ⟨k, v⟩ := hd
    simp only [txnSet]
    split_ifs with h1 h2
    · intro x hx
      rcases hx with _ | ⟨_, hx⟩
      · exact Or.inl rfl
      · exact Or.inr hx
    · intro x hx
      rcases hx with _ | ⟨_, hx⟩
      · exact Or.inl rfl
      · exact Or.inr (List.mem_cons_of_mem _ hx)
    · intro x hx
      rcases hx with _ | ⟨_, hx⟩
      · exact Or.inr (List.mem_cons_self _ _)
      · rcases ih x hx with h | h
        · exact Or.inl h
        · exact Or.inr (List.mem_cons_of_mem _ h)

theorem txnSet_sorted {m : TxnMap} (hm : TxnMapSorted m) (t : TxnNumber)
    (c : TransactionCoordinator) : TxnMapSorted (txnSet m t c) := by
  induction m with
  | nil => simp [txnSet, TxnMapSorted]
  | cons hd tl ih =>
    obtain ⟨k, v⟩ := hd
    rw [TxnMapSorted, List.pairwise_cons] at hm
    obtain ⟨hk, htl⟩ := hm
    simp only [txnSet]
    split_ifs with h1 h2
    · refine List.Pairwise.cons ?_ (List.Pairwise.cons hk htl)
      intro q hq
      rcases hq with _ | ⟨_, hq⟩
      · exact h1
      · exact lt_trans (hk q hq) h1
    · subst h2
      exact List.Pairwise.cons hk htl
    · refine List.Pairwise.cons ?_ (ih htl)
      intro q hq
      rcases txnSet_subset q hq with h | h
      · subst h
        show t < k
        exact lt_of_le_of_ne (le_of_not_lt h1) h2
      · exact hk q h

theorem txnErase_sublist (m : TxnMap) (t : TxnNumber) :
    (txnErase m t).Sublist m := by
  induction m with
  | nil => simp [txnErase]
  | cons hd tl ih =>
    obtain ⟨k, v⟩ := hd
    simp only [txnErase]
    split_ifs with h
    · exact List.sublist_cons_self _ _
    · exact List.Sublist.cons₂ _ ih

theorem txnErase_sorted {m : TxnMap} (hm : TxnMapSorted m) (t : TxnNumber) :
    TxnMapSorted (txnErase m t) :=
  List.Pairwise.sublist (txnErase_sublist m t) hm

theorem txnFind_txnErase {m : TxnMap} (hm : TxnMapSorted m) (t t' : TxnNumber) :
    txnFind (txnErase m t) t' = if t' = t then none else txnFind m t' := by
  induction m with
  | nil => simp [txnErase, txnFind]
  | cons hd tl ih =>
    obtain ⟨k, v⟩ := hd
    rw [TxnMapSorted, List.pairwise_cons] at hm
    obtain ⟨hk, htl⟩ := hm
    simp only [txnErase]
    by_cases h : k = t
    · rw [if_pos h]
      by_cases h' : t' = t
      · rw [if_pos h']
        apply (txnFind_eq_none_iff tl t').mpr
        intro q hq
        have hlt : q.1 < k := hk q hq
        rw [h] at hlt
        rw [h']
        exact Nat.ne_of_lt hlt
      · rw [if_neg h']
        have hkt : ¬ k = t' := fun hh => h' (Eq.trans hh.symm h)
        simp [txnFind, hkt]
    · rw [if_neg h]
      by_cases h' : t' = t
      · rw [if_pos h']
        have hkt : ¬ k = t' := fun hh => h (hh.trans h')
        simp only [txnFind]
        rw [if_neg hkt, ih htl, if_pos h']
      · rw [if_neg h']
        simp only [txnFind]
        by_cases hk' : k = t'
        · rw [if_pos hk', if_pos hk']
        · rw [if_neg hk', if_neg hk', ih htl, if_neg h']

theorem txnErase_eq_nil_iff (m : TxnMap) (t : TxnNumber) :
    txnErase m t = [] ↔ m = [] ∨ ∃ c, m = [(t, c)] := by
  cases m with
  | nil => simp [txnErase]
  | cons hd tl =>
    obtain ⟨k, v⟩ := hd
    simp only [txnErase]
    by_cases h : k = t
    · subst h
      rw [if_pos rfl]
      constructor
      · intro hh
        exact Or.inr ⟨v, by rw [hh]⟩
      · rintro (hh | ⟨c, hh⟩)
        · exact (List.cons_ne_nil _ _ hh).elim
        · exact (List.cons_eq_cons.mp hh).2
    · rw [if_neg h]
      constructor
      · intro hh
        exact (List.cons_ne_nil _ _ hh).elim
      · rintro (hh | ⟨c, hh⟩)
        · exact (List.cons_ne_nil _ _ hh).elim
        · exact absurd (congrArg Prod.fst (List.cons_eq_cons.mp hh).1) h

theorem sessFind_eq_none_iff (m : SessionMap) (l : LogicalSessionId) :
    sessFind m l = none ↔ ∀ q ∈ m, q.1 ≠ l := by
  induction m with
  | nil => simp [sessFind]
  | cons hd tl ih =>
    obtain ⟨k, v⟩ := hd
    by_cases h : k = l <;> simp [sessFind, h, ih]

theorem sessFind_mem {m : SessionMap} {l : LogicalSessionId} {v : TxnMap}
    (h : sessFind m l = some v) : (l, v) ∈ m := by
  induction m with
  | nil => simp [sessFind] at h
  | cons hd tl ih =>
    obtain ⟨k, w⟩ := hd
    by_cases hk : k = l
    · subst hk
      simp [sessFind] at h
      subst h
      exact List.mem_cons_self _ _
    · simp [sessFind, hk] at h
      exact List.mem_cons_of_mem _ (ih h)

theorem sessFind_sessSet_self (m : SessionMap) (l : LogicalSessionId)
    (inner : TxnMap) : sessFind (sessSet m l inner) l = some inner := by
  induction m with
  | nil => simp [sessSet, sessFind]
  | cons hd tl ih =>
    obtain ⟨k, v⟩ := hd
    simp only [sessSet]
    by_cases h : k = l
    · rw [if_pos h]
      simp [sessFind]
    · rw [if_neg h]
      simp [sessFind, h, ih]

theorem sessFind_sessSet_ne (m : SessionMap) (l l' : LogicalSessionId)
    (inner : TxnMap) (h : l' ≠ l) :
    sessFind (sessSet m l inner) l' = sessFind m l' := by
  have hls : ¬ l = l' := fun hh => h hh.symm
  induction m with
  | nil => simp [sessSet, sessFind, hls]
  | cons hd tl ih =>
    obtain ⟨k, v⟩ := hd
    simp only [sessSet]
    by_cases hk : k = l
    · rw [if_pos hk]
      subst hk
      simp only [sessFind]
      rw [if_neg hls, if_neg hls]
    · rw [if_neg hk]
      simp only [sessFind]
      by_cases hk' : k = l'
      · rw [if_pos hk', if_pos hk']
      · rw [if_neg hk', if_neg hk', ih]

theorem sessFind_sessSet (m : SessionMap) (l l' : LogicalSessionId)
    (inner : TxnMap) :
    sessFind (sessSet m l inner) l' =
      if l' = l then some inner else sessFind m l' := by
  by_cases h : l' = l
  · subst h
    rw [if_pos rfl, sessFind_sessSet_self]
  · rw [if_neg h, sessFind_sessSet_ne m l l' inner h]

theorem sessSet_subset {m : SessionMap} {l : LogicalSessionId} {inner : TxnMap} :
    ∀ x ∈ sessSet m l inner, x = (l, inner) ∨ x ∈ m := by
  induction m with
  | nil => simp [sessSet]
  | cons hd tl ih =>
    obtain ⟨k, v⟩ := hd
    simp only [sessSet]
    by_cases h : k = l
    · rw [if_pos h]
      intro x hx
      rcases hx with _ | ⟨_, hx⟩
      · exact Or.inl rfl
      · exact Or.inr (List.mem_cons_of_mem _ hx)
    · rw [if_neg h]
      intro x hx
      rcases hx with _ | ⟨_, hx⟩
      · exact Or.inr (List.mem_cons_self _ _)
      · rcases ih x hx with hc | hc
        · exact Or.inl hc
        · exact Or.inr (List.mem_cons_of_mem _ hc)

theorem sessSet_pairwise_keys {m : SessionMap} {l : LogicalSessionId}
    {inner : TxnMap}
    (hm : List.Pairwise (fun a b => a.1 ≠ b.1) m) :
    List.Pairwise (fun a b => a.1 ≠ b.1) (sessSet m l inner) := by
  induction m with
  | nil => simp [sessSet]
  | cons hd tl ih =>
    obtain ⟨k, v⟩ := hd
    rw [List.pairwise_cons] at hm
    obtain ⟨hk, htl⟩ := hm
    simp only [sessSet]
    by_cases h : k = l
    · rw [if_pos h]
      refine List.Pairwise.cons ?_ htl
      intro q hq
      exact h ▸ hk q hq
    · rw [if_neg h]
      refine List.Pairwise.cons ?_ (ih htl)
      intro q hq
      rcases sessSet_subset q hq with hc | hc
      · subst hc
        exact h
      · exact hk q hc

theorem sessErase_sublist (m : SessionMap) (l : LogicalSessionId) :
    (sessErase m l).Sublist m := by
  induction m with
  | nil => simp [sessErase]
  | cons hd tl ih =>
    obtain ⟨k, v⟩ := hd
    simp only [sessErase]
    split_ifs with h
    · exact List.sublist_cons_self _ _
    · exact List.Sublist.cons₂ _ ih

theorem sessFind_sessErase {m : SessionMap}
    (hm : List.Pairwise (fun a b => a.1 ≠ b.1) m) (l l' : LogicalSessionId) :
    sessFind (sessErase m l) l' = if l' = l then none else sessFind m l' := by
  induction m with
  | nil => simp [sessErase, sessFind]
  | cons hd tl ih =>
    obtain ⟨k, v⟩ := hd
    rw [List.pairwise_cons] at hm
    obtain ⟨hk, htl⟩ := hm
    simp only [sessErase]
    by_cases h : k = l
    · rw [if_pos h]
      by_cases h' : l' = l
      · rw [if_pos h']
        apply (sessFind_eq_none_iff tl l').mpr
        intro q hq
        have hne : k ≠ q.1 := hk q hq
        rw [h] at hne
        rw [h']
        exact fun hh => hne hh.symm
      · rw [if_neg h']
        have hkl : ¬ k = l' := fun hh => h' (Eq.trans hh.symm h)
        simp [sessFind, hkl]
    · rw [if_neg h]
      by_cases h' : l' = l
      · rw [if_pos h']
        have hkl : ¬ k = l' := fun hh => h (hh.trans h')
        simp only [sessFind]
        rw [if_neg hkl, ih htl, if_pos h']
      · rw [if_neg h']
        simp only [sessFind]
        by_cases hk' : k = l'
        · rw [if_pos hk', if_pos hk']
        · rw [if_neg hk', if_neg hk', ih htl, if_neg h']

theorem primaryFind_eq_getD (s : CatalogState) (l : LogicalSessionId)
    (t : TxnNumber) :
    primaryFind s l t = txnFind ((sessFind s.coordinatorsBySession l).getD []) t := by
  unfold primaryFind outerFind
  cases sessFind s.coordinatorsBySession l <;> simp [txnFind]

theorem waitForStepUp_ok_iff {s : CatalogState} {opCtx : OperationContext} :
    waitForStepUpToComplete s opCtx = .ok () ↔
      ∃ st, s.stepUpCompletionStatus = some st ∧ st.isOK = true := by
  unfold waitForStepUpToComplete
  cases hg : s.stepUpCompletionStatus with
  | some st =>
    by_cases hk : st.isOK <;> simp [hk]
  | none =>
    cases hi : opCtx.interruptStatus <;> simp

theorem waitForStepUp_gateFailed {s : CatalogState} (opCtx : OperationContext)
    {st : Status} (hg : s.stepUpCompletionStatus = some st)
    (hf : st.isOK = false) :
    waitForStepUpToComplete s opCtx = .err st s := by
  unfold waitForStepUpToComplete
  rw [hg]
  simp [hf]

theorem waitForStepUp_err_state {s : CatalogState} {opCtx : OperationContext}
    {st : Status} {s₀ : CatalogState}
    (h : waitForStepUpToComplete s opCtx = .err st s₀) : s₀ = s := by
  unfold waitForStepUpToComplete at h
  cases hg : s.stepUpCompletionStatus with
  | some st' =>
    rw [hg] at h
    by_cases hk : st'.isOK
    · simp [hk] at h
    · simp [hk] at h
      exact h.2.symm
  | none =>
    rw [hg] at h
    cases hi : opCtx.interruptStatus with
    | ok => rw [hi] at h; cases h
    | error c =>
      rw [hi] at h
      cases h
      rfl

theorem insertLocked_fatal_iff (s : CatalogState) (l : LogicalSessionId)
    (t : TxnNumber) (c : TransactionCoordinator) :
    insertLocked s l t c = .fatal ↔ (primaryFind s l t).isSome := by
  unfold insertLocked
  rw [primaryFind_eq_getD]
  cases hx : (txnFind ((sessFind s.coordinatorsBySession l).getD []) t) <;> simp [hx]

theorem insertLocked_ok (s : CatalogState) (l : LogicalSessionId)
    (t : TxnNumber) (c : TransactionCoordinator)
    (h : primaryFind s l t = none) :
    insertLocked s l t c =
      .ok { s with
        completionContinuations := (l, t) :: s.completionContinuations
        coordinatorsBySession :=
          sessSet s.coordinatorsBySession l
            (txnSet ((sessFind s.coordinatorsBySession l).getD []) t c) } := by
  rw [primaryFind_eq_getD] at h
  unfold insertLocked
  simp [h]

theorem insert_false_gate_err {s : CatalogState} {opCtx : OperationContext}
    (l : LogicalSessionId) (t : TxnNumber) (c : TransactionCoordinator)
    {st : Status} {s₀ : CatalogState}
    (h : waitForStepUpToComplete s opCtx = .err st s₀) :
    insert s opCtx l t c false = .err st s₀ := by
  unfold insert
  rw [if_neg Bool.false_ne_true, h]

theorem insert_false_gate_ok {s : CatalogState} {opCtx : OperationContext}
    (l : LogicalSessionId) (t : TxnNumber) (c : TransactionCoordinator)
    (h : waitForStepUpToComplete s opCtx = .ok ()) :
    insert s opCtx l t c false = insertLocked s l t c := by
  unfold insert
  rw [if_neg Bool.false_ne_true, h]

theorem insert_true_eq_locked (s : CatalogState) (opCtx : OperationContext)
    (l : LogicalSessionId) (t : TxnNumber) (c : TransactionCoordinator) :
    insert s opCtx l t c true = insertLocked s l t c := by
  unfold insert
  rw [if_pos rfl]

theorem exitStepUp_of_none {s : CatalogState} (st : Status)
    (h : s.stepUpCompletionStatus = none) :
    exitStepUp s st = .ok { s with stepUpCompletionStatus := some st } := by
  unfold exitStepUp
  rw [h]

theorem exitStepUp_of_some {s : CatalogState} (st : Status) {st' : Status}
    (h : s.stepUpCompletionStatus = some st') :
    exitStepUp s st = .fatal := by
  unfold exitStepUp
  rw [h]

theorem remove_absent (s : CatalogState) (l : LogicalSessionId) (t : TxnNumber)
    (fp : Bool) (h : primaryFind s l t = none) :
    remove s l t fp =
      .ok { state := s
            signaledNoActiveCoordinators := s.coordinatorsBySession.isEmpty } := by
  unfold remove
  cases hs : sessFind s.coordinatorsBySession l with
  | none => simp [hs]
  | some m =>
    have ht : txnFind m t = none := by
      unfold primaryFind outerFind at h
      rw [hs] at h
      simpa using h
    simp [hs, ht]

theorem remove_present (s : CatalogState) (l : LogicalSessionId) (t : TxnNumber)
    {m : TxnMap} {c : TransactionCoordinator} (fp : Bool)
    (hs : sessFind s.coordinatorsBySession l = some m)
    (ht : txnFind m t = some c)
    (hready : fp = true → c.decisionReady = true) :
    remove s l t fp =
      .ok { state :=
              { s with
                coordinatorsBySession := removeErasedOuter s l m t
                coordinatorsBySessionDefunct := removeRetainedDefunct s l t c fp }
            signaledNoActiveCoordinators := (removeErasedOuter s l m t).isEmpty } := by
  cases fp with
  | false =>
    simp [remove, hs, ht, removeErasedOuter, removeRetainedDefunct]
  | true =>
    have hr : c.decisionReady = true := hready rfl
    cases hok : c.decisionStatus.isOK with
    | false =>
      simp [remove, hs, ht, hr, hok, removeErasedOuter, removeRetainedDefunct]
    | true =>
      simp [remove, hs, ht, hr, hok, removeErasedOuter, removeRetainedDefunct]

theorem remove_fatal_of_not_ready (s : CatalogState) (l : LogicalSessionId)
    (t : TxnNumber) {m : TxnMap} {c : TransactionCoordinator}
    (hs : sessFind s.coordinatorsBySession l = some m)
    (ht : txnFind m t = some c)
    (hnr : c.decisionReady = false) :
    remove s l t true = .fatal := by
  simp [remove, hs, ht, hnr]

theorem insert_ok_elim {s : CatalogState} {opCtx : OperationContext}
    {l : LogicalSessionId} {t : TxnNumber} {c : TransactionCoordinator}
    {f : Bool} {s' : CatalogState}
    (h : insert s opCtx l t c f = .ok s') : insertLocked s l t c = .ok s' := by
  cases f with
  | true => rw [insert_true_eq_locked] at h; exact h
  | false =>
    unfold insert at h
    rw [if_neg Bool.false_ne_true] at h
    cases hw : waitForStepUpToComplete s opCtx with
    | fatal => rw [hw] at h; cases h
    | blocked => rw [hw] at h; cases h
    | err e u => rw [hw] at h; cases h
    | ok u => rw [hw] at h; exact h

theorem WF_initial : WF initialCatalog := by
  constructor <;> simp [initialCatalog]

theorem WF_insertLocked {s s' : CatalogState} {l : LogicalSessionId}
    {t : TxnNumber} {c : TransactionCoordinator}
    (hwf : WF s) (h : insertLocked s l t c = .ok s') : WF s' := by
  have hnone : primaryFind s l t = none := by
    cases hq : primaryFind s l t with
    | none => rfl
    | some c' =>
      rw [(insertLocked_fatal_iff s l t c).mpr (by rw [hq]; rfl)] at h
      cases h
  rw [insertLocked_ok s l t c hnone] at h
  have hs' := (Outcome.ok.inj h).symm
  subst hs'
  have hsor : TxnMapSorted ((sessFind s.coordinatorsBySession l).getD []) := by
    cases hf : sessFind s.coordinatorsBySession l with
    | none => simp [TxnMapSorted]
    | some m0 => simpa using hwf.innerSorted (l, m0) (sessFind_mem hf)
  constructor
  · exact sessSet_pairwise_keys hwf.outerNodup
  · intro p hp
    rcases sessSet_subset p hp with hc | hc
    · subst hc
      exact txnSet_sorted hsor t c
    · exact hwf.innerSorted p hc
  · intro p hp
    rcases sessSet_subset p hp with hc | hc
    · subst hc
      exact txnSet_ne_nil _ t c
    · exact hwf.innerNonempty p hc

theorem WF_remove {s : CatalogState} {l : LogicalSessionId} {t : TxnNumber}
    {fp : Bool} {r : RemoveResult}
    (hwf : WF s) (h : remove s l t fp = .ok r) : WF r.state := by
  cases hs : sessFind s.coordinatorsBySession l with
  | none =>
    rw [remove_absent s l t fp (by simp [primaryFind, outerFind, hs])] at h
    have hr := (Outcome.ok.inj h).symm
    subst hr
    exact hwf
  | some m =>
    cases ht : txnFind m t with
    | none =>
      rw [remove_absent s l t fp (by simp [primaryFind, outerFind, hs, ht])] at h
      have hr := (Outcome.ok.inj h).symm
      subst hr
      exact hwf
    | some c =>
      have hready : fp = true → c.decisionReady = true := by
        intro hfp
        subst hfp
        cases hrd : c.decisionReady with
        | false => rw [remove_fatal_of_not_ready s l t hs ht hrd] at h; cases h
        | true => rfl
      rw [remove_present s l t fp hs ht hready] at h
      have hr := (Outcome.ok.inj h).symm
      subst hr
      have hmsor : TxnMapSorted m := by
        simpa using hwf.innerSorted (l, m) (sessFind_mem hs)
      constructor
      · show List.Pairwise _ (removeErasedOuter s l m t)
        unfold removeErasedOuter
        split_ifs
        · exact List.Pairwise.sublist (sessErase_sublist _ _) hwf.outerNodup
        · exact sessSet_pairwise_keys hwf.outerNodup
      · intro p hp
        simp only [removeErasedOuter] at hp
        split_ifs at hp with hemp
        · exact hwf.innerSorted p ((sessErase_sublist _ _).subset hp)
        · rcases sessSet_subset p hp with hc | hc
          · subst hc
            exact txnErase_sorted hmsor t
          · exact hwf.innerSorted p hc
      · intro p hp
        simp only [removeErasedOuter] at hp
        split_ifs at hp with hemp
        · exact hwf.innerNonempty p ((sessErase_sublist _ _).subset hp)
        · rcases sessSet_subset p hp with hc | hc
          · subst hc
            intro hnil
            have hnil' : txnErase m t = [] := hnil
            rw [hnil'] at hemp
            simp at hemp
          · exact hwf.innerNonempty p hc

theorem WF_exitStepUp {s s' : CatalogState} {st : Status}
    (hwf : WF s) (h : exitStepUp s st = .ok s') : WF s' := by
  cases hg : s.stepUpCompletionStatus with
  | some st' => rw [exitStepUp_of_some st hg] at h; cases h
  | none =>
    rw [exitStepUp_of_none st hg] at h
    have hs' := (Outcome.ok.inj h).symm
    subst hs'
    exact ⟨hwf.outerNodup, hwf.innerSorted, hwf.innerNonempty⟩

theorem WF_step {s s' : CatalogState} (hwf : WF s) (h : Step s s') : WF s' := by
  cases h with
  | ofInsert opCtx l t c f s' hins =>
    exact WF_insertLocked hwf (insert_ok_elim hins)
  | ofRemove l t fp r hrem =>
    exact WF_remove hwf hrem
  | ofExitStepUp st s' hex =>
    exact WF_exitStepUp hwf hex
  | ofComplete k fp r hcomp =>
    have hwf' :
        WF { s with completionContinuations := s.completionContinuations.erase k } :=
      ⟨hwf.outerNodup, hwf.innerSorted, hwf.innerNonempty⟩
    unfold completeCoordinator at hcomp
    exact WF_remove hwf' hcomp

theorem Reachable_WF {s : CatalogState} (h : Reachable s) : WF s := by
  induction h with
  | refl => exact WF_initial
  | tail _ hstep ih => exact WF_step ih hstep

theorem WF_allKeys_nodup {s : CatalogState} (hwf : WF s) :
    (allKeys s).Nodup := by
  unfold allKeys
  rw [List.nodup_flatMap]
  constructor
  · intro p hp
    have hsor := hwf.innerSorted p hp
    rw [List.Nodup, List.pairwise_map]
    exact hsor.imp (fun hab => by
      intro hcontra
      have := congrArg Prod.snd hcontra
      simp at this
      exact absurd (this ▸ hab) (lt_irrefl _))
  · refine hwf.outerNodup.imp ?_
    intro a b hab
    intro x hxa hxb
    simp only [List.mem_map] at hxa hxb
    obtain ⟨qa, _, hqa⟩ := hxa
    obtain ⟨qb, _, hqb⟩ := hxb
    apply hab
    rw [← hqa] at hqb
    exact (congrArg Prod.fst hqb).symm

theorem outerFind_sessSet_txnSet (om : SessionMap) (l : LogicalSessionId)
    (t : TxnNumber) (c : TransactionCoordinator) :
    outerFind (sessSet om l (txnSet ((sessFind om l).getD []) t c)) l t =
      some c := by
  unfold outerFind
  rw [sessFind_sessSet_self]
  simp [txnFind_txnSet_self]

theorem insertLocked_preserves {s s' : CatalogState} {l : LogicalSessionId}
    {t : TxnNumber} {c : TransactionCoordinator}
    (h : insertLocked s l t c = .ok s') :
    s'.stepUpCompletionStatus = s.stepUpCompletionStatus ∧
    s'.coordinatorsBySessionDefunct = s.coordinatorsBySessionDefunct ∧
    s'.completionContinuations = (l, t) :: s.completionContinuations := by
  simp only [insertLocked] at h
  split_ifs at h with hcond
  have hr := (Outcome.ok.inj h).symm
  subst hr
  exact ⟨rfl, rfl, rfl⟩

theorem outerFind_sessSet (om : SessionMap) (l l' : LogicalSessionId)
    (inner : TxnMap) (t' : TxnNumber) :
    outerFind (sessSet om l inner) l' t' =
      if l' = l then txnFind inner t' else outerFind om l' t' := by
  unfold outerFind
  rw [sessFind_sessSet]
  by_cases hl : l' = l
  · rw [if_pos hl, if_pos hl]
  · rw [if_neg hl, if_neg hl]

theorem outerFind_sessErase {om : SessionMap}
    (hm : List.Pairwise (fun a b => a.1 ≠ b.1) om)
    (l l' : LogicalSessionId) (t' : TxnNumber) :
    outerFind (sessErase om l) l' t' =
      if l' = l then none else outerFind om l' t' := by
  unfold outerFind
  rw [sessFind_sessErase hm]
  by_cases hl : l' = l
  · rw [if_pos hl, if_pos hl]
  · rw [if_neg hl, if_neg hl]

theorem primaryFind_insertLocked {s s' : CatalogState} {l : LogicalSessionId}
    {t : TxnNumber} {c : TransactionCoordinator}
    (h : insertLocked s l t c = .ok s')
    (l' : LogicalSessionId) (t' : TxnNumber) :
    primaryFind s' l' t' =
      if l' = l ∧ t' = t then some c else primaryFind s l' t' := by
  have hnone : primaryFind s l t = none := by
    cases hq : primaryFind s l t with
    | none => rfl
    | some c' =>
      rw [(insertLocked_fatal_iff s l t c).mpr (by rw [hq]; rfl)] at h
      cases h
  rw [insertLocked_ok s l t c hnone] at h
  have hr := (Outcome.ok.inj h).symm
  subst hr
  show outerFind
      (sessSet s.coordinatorsBySession l
        (txnSet ((sessFind s.coordinatorsBySession l).getD []) t c)) l' t' = _
  rw [outerFind_sessSet]
  by_cases hl : l' = l
  · rw [if_pos hl, txnFind_txnSet]
    by_cases htt : t' = t
    · rw [if_pos htt, if_pos ⟨hl, htt⟩]
    · rw [if_neg htt, if_neg (fun hc => htt hc.2), hl, primaryFind_eq_getD]
  · rw [if_neg hl, if_neg (fun hc => hl hc.1)]
    rfl

theorem outerFind_removeErasedOuter {s : CatalogState} {l : LogicalSessionId}
    {m : TxnMap} (t : TxnNumber)
    (hwf : WF s) (hs : sessFind s.coordinatorsBySession l = some m)
    (l' : LogicalSessionId) (t' : TxnNumber) :
    outerFind (removeErasedOuter s l m t) l' t' =
      if l' = l ∧ t' = t then none else primaryFind s l' t' := by
  have hmsor : TxnMapSorted m := by
    simpa using hwf.innerSorted (l, m) (sessFind_mem hs)
  unfold removeErasedOuter
  by_cases hemp : (txnErase m t).isEmpty = true
  · rw [if_pos hemp, outerFind_sessErase hwf.outerNodup]
    by_cases hl : l' = l
    · rw [if_pos hl]
      by_cases htt : t' = t
      · rw [if_pos ⟨hl, htt⟩]
      · rw [if_neg (fun hc => htt hc.2), hl, primaryFind_eq_getD, hs]
        rcases (txnErase_eq_nil_iff m t).mp (List.isEmpty_iff.mp hemp) with
          hm | ⟨c0, hm⟩
        · rw [hm]
          simp [txnFind]
        · rw [hm]
          simp [txnFind, show ¬ t = t' from fun hh => htt hh.symm]
    · rw [if_neg hl, if_neg (fun hc => hl hc.1)]
      rfl
  · rw [if_neg hemp, outerFind_sessSet]
    by_cases hl : l' = l
    · rw [if_pos hl, txnFind_txnErase hmsor]
      by_cases htt : t' = t
      · rw [if_pos htt, if_pos ⟨hl, htt⟩]
      · rw [if_neg htt, if_neg (fun hc => htt hc.2), hl, primaryFind_eq_getD, hs]
        rfl
    · rw [if_neg hl, if_neg (fun hc => hl hc.1)]
      rfl

theorem remove_state_preserves {s : CatalogState} {l : LogicalSessionId}
    {t : TxnNumber} {fp : Bool} {r : RemoveResult}
    (h : remove s l t fp = .ok r) :
    r.state.stepUpCompletionStatus = s.stepUpCompletionStatus ∧
    r.state.completionContinuations = s.completionContinuations := by
  cases hs : sessFind s.coordinatorsBySession l with
  | none =>
    rw [remove_absent s l t fp (by simp [primaryFind, outerFind, hs])] at h
    have hr := (Outcome.ok.inj h).symm
    subst hr
    exact ⟨rfl, rfl⟩
  | some m =>
    cases ht : txnFind m t with
    | none =>
      rw [remove_absent s l t fp (by simp [primaryFind, outerFind, hs, ht])] at h
      have hr := (Outcome.ok.inj h).symm
      subst hr
      exact ⟨rfl, rfl⟩
    | some c =>
      have hready : fp = true → c.decisionReady = true := by
        intro hfp
        subst hfp
        cases hrd : c.decisionReady with
        | false => rw [remove_fatal_of_not_ready s l t hs ht hrd] at h; cases h
        | true => rfl
      rw [remove_present s l t fp hs ht hready] at h
      have hr := (Outcome.ok.inj h).symm
      subst hr
      exact ⟨rfl, rfl⟩

theorem step_gate_monotone {s s' : CatalogState} (h : Step s s') {st : Status}
    (hg : s.stepUpCompletionStatus = some st) :
    s'.stepUpCompletionStatus = some st := by
  cases h with
  | ofInsert opCtx l t c f s' hins =>
    rw [(insertLocked_preserves (insert_ok_elim hins)).1, hg]
  | ofRemove l t fp r hrem =>
    rw [(remove_state_preserves hrem).1, hg]
  | ofExitStepUp st' s' hex =>
    rw [exitStepUp_of_some st' hg] at hex
    cases hex
  | ofComplete k fp r hcomp =>
    unfold completeCoordinator at hcomp
    rw [(remove_state_preserves hcomp).1, hg]

theorem sorted_head_le {e : TxnNumber × TransactionCoordinator} {rest : TxnMap}
    (hm : TxnMapSorted (e :: rest)) : ∀ q ∈ e :: rest, q.1 ≤ e.1 := by
  rw [TxnMapSorted, List.pairwise_cons] at hm
  intro q hq
  rcases hq with _ | ⟨_, hq⟩
  · exact le_refl _
  · exact le_of_lt (hm.1 q hq)

theorem get_gate_err {s : CatalogState} {opCtx : OperationContext}
    (l : LogicalSessionId) (t : TxnNumber) (fp : Bool)
    {st : Status} {s₀ : CatalogState}
    (h : waitForStepUpToComplete s opCtx = .err st s₀) :
    get s opCtx l t fp = .err st s₀ := by
  unfold get
  rw [h]

theorem get_gate_ok_hit {s : CatalogState} {opCtx : OperationContext}
    {l : LogicalSessionId} {t : TxnNumber} (fp : Bool)
    {c : TransactionCoordinator}
    (hg : waitForStepUpToComplete s opCtx = .ok ())
    (hp : primaryFind s l t = some c) :
    get s opCtx l t fp = .ok (some c) := by
  unfold get
  rw [hg, hp]

theorem get_gate_ok_fallback {s : CatalogState} {opCtx : OperationContext}
    {l : LogicalSessionId} {t : TxnNumber}
    (hg : waitForStepUpToComplete s opCtx = .ok ())
    (hp : primaryFind s l t = none) :
    get s opCtx l t true = .ok (defunctFind s l t) := by
  unfold get
  rw [hg, hp]
  rfl

theorem get_gate_ok_miss {s : CatalogState} {opCtx : OperationContext}
    {l : LogicalSessionId} {t : TxnNumber}
    (hg : waitForStepUpToComplete s opCtx = .ok ())
    (hp : primaryFind s l t = none) :
    get s opCtx l t false = .ok none := by
  unfold get
  rw [hg, hp]
  rfl

theorem getLatest_gate_err {s : CatalogState} {opCtx : OperationContext}
    (l : LogicalSessionId) {st : Status} {s₀ : CatalogState}
    (h : waitForStepUpToComplete s opCtx = .err st s₀) :
    getLatestOnSession s opCtx l = .err st s₀ := by
  unfold getLatestOnSession
  rw [h]

theorem getLatest_gate_ok_absent {s : CatalogState} {opCtx : OperationContext}
    {l : LogicalSessionId}
    (hg : waitForStepUpToComplete s opCtx = .ok ())
    (hs : sessFind s.coordinatorsBySession l = none) :
    getLatestOnSession s opCtx l = .ok none := by
  unfold getLatestOnSession
  rw [hg, hs]

theorem getLatest_gate_ok_present {s : CatalogState} {opCtx : OperationContext}
    {l : LogicalSessionId} {e : TxnNumber × TransactionCoordinator}
    {rest : TxnMap}
    (hg : waitForStepUpToComplete s opCtx = .ok ())
    (hs : sessFind s.coordinatorsBySession l = some (e :: rest)) :
    getLatestOnSession s opCtx l = .ok (some e) := by
  unfold getLatestOnSession
  rw [hg, hs]

theorem waitForStepUp_ne_fatal (s : CatalogState) (opCtx : OperationContext) :
    waitForStepUpToComplete s opCtx ≠ .fatal := by
  unfold waitForStepUpToComplete
  cases s.stepUpCompletionStatus with
  | none => cases opCtx.interruptStatus <;> simp
  | some st => by_cases hk : st.isOK <;> simp [hk]

theorem insert_fatal_elim {s : CatalogState} {opCtx : OperationContext}
    {l : LogicalSessionId} {t : TxnNumber} {c : TransactionCoordinator}
    {f : Bool} (h : insert s opCtx l t c f = .fatal) :
    insertLocked s l t c = .fatal := by
  cases f with
  | true => rw [insert_true_eq_locked] at h; exact h
  | false =>
    unfold insert at h
    rw [if_neg Bool.false_ne_true] at h
    cases hw : waitForStepUpToComplete s opCtx with
    | fatal => exact absurd hw (waitForStepUp_ne_fatal s opCtx)
    | blocked => rw [hw] at h; cases h
    | err e u => rw [hw] at h; cases h
    | ok u => rw [hw] at h; exact h

theorem insertLocked_cases (s : CatalogState) (l : LogicalSessionId)
    (t : TxnNumber) (c : TransactionCoordinator) :
    insertLocked s l t c = .fatal ∨ ∃ s', insertLocked s l t c = .ok s' := by
  simp only [insertLocked]
  split_ifs
  · exact Or.inl rfl
  · exact Or.inr ⟨_, rfl⟩

theorem primaryFind_some_elim {s : CatalogState} {l : LogicalSessionId}
    {t : TxnNumber} {c : TransactionCoordinator}
    (h : primaryFind s l t = some c) :
    ∃ m, sessFind s.coordinatorsBySession l = some m ∧ txnFind m t = some c := by
  unfold primaryFind outerFind at h
  cases hs : sessFind s.coordinatorsBySession l with
  | none => rw [hs] at h; cases h
  | some m =>
    rw [hs] at h
    exact ⟨m, rfl, h⟩

theorem remove_signal {s : CatalogState} {l : LogicalSessionId} {t : TxnNumber}
    {fp : Bool} {r : RemoveResult} (h : remove s l t fp = .ok r) :
    r.signaledNoActiveCoordinators = r.state.coordinatorsBySession.isEmpty := by
  cases hs : sessFind s.coordinatorsBySession l with
  | none =>
    rw [remove_absent s l t fp (by simp [primaryFind, outerFind, hs])] at h
    have hr := (Outcome.ok.inj h).symm
    subst hr
    rfl
  | some m =>
    cases ht : txnFind m t with
    | none =>
      rw [remove_absent s l t fp (by simp [primaryFind, outerFind, hs, ht])] at h
      have hr := (Outcome.ok.inj h).symm
      subst hr
      rfl
    | some c =>
      have hready : fp = true → c.decisionReady = true := by
        intro hfp
        subst hfp
        cases hrd : c.decisionReady with
        | false => rw [remove_fatal_of_not_ready s l t hs ht hrd] at h; cases h
        | true => rfl
      rw [remove_present s l t fp hs ht hready] at h
      have hr := (Outcome.ok.inj h).symm
      subst hr
      rfl

theorem txnErase_nil_of_all_eq {m : TxnMap} (hm : TxnMapSorted m)
    (t : TxnNumber) (hall : ∀ q ∈ m, q.1 = t) : txnErase m t = [] := by
  cases m with
  | nil => rfl
  | cons e rest =>
    obtain ⟨k, v⟩ := e
    have he : k = t := hall (k, v) (List.mem_cons_self _ _)
    cases rest with
    | nil => simp [txnErase, he]
    | cons e2 rest2 =>
      have h2 : e2.1 = t := hall e2 (List.mem_cons_of_mem _ (List.mem_cons_self _ _))
      rw [TxnMapSorted, List.pairwise_cons] at hm
      have hlt : e2.1 < k := hm.1 e2 (List.mem_cons_self _ _)
      rw [he, h2] at hlt
      exact absurd hlt (lt_irrefl _)

theorem exitStepUp_ok_gate {s₀ s : CatalogState} {st : Status}
    (h : exitStepUp s₀ st = .ok s) :
    s.stepUpCompletionStatus = some st := by
  cases hg : s₀.stepUpCompletionStatus with
  | some st' => rw [exitStepUp_of_some st hg] at h; cases h
  | none =>
    rw [exitStepUp_of_none st hg] at h
    have hr := (Outcome.ok.inj h).symm
    subst hr
    rfl

theorem waitForStepUp_ok_of_gate_eq {s s' : CatalogState}
    {opCtx : OperationContext}
    (h : waitForStepUpToComplete s opCtx = .ok ())
    (hgate : s'.stepUpCompletionStatus = s.stepUpCompletionStatus) :
    waitForStepUpToComplete s' opCtx = .ok () := by
  rw [waitForStepUp_ok_iff] at h
  obtain ⟨st, hst, hok⟩ := h
  rw [waitForStepUp_ok_iff]
  exact ⟨st, by rw [hgate, hst], hok⟩

theorem get_err_elim {s : CatalogState} {opCtx : OperationContext}
    {l : LogicalSessionId} {t : TxnNumber} {fp : Bool}
    {st : Status} {s₀ : CatalogState}
    (h : get s opCtx l t fp = .err st s₀) :
    waitForStepUpToComplete s opCtx = .err st s₀ := by
  unfold get at h
  cases hw : waitForStepUpToComplete s opCtx with
  | fatal => rw [hw] at h; cases h
  | blocked => rw [hw] at h; cases h
  | err e u => rw [hw] at h; cases h; rfl
  | ok u =>
    rw [hw] at h
    cases hp : primaryFind s l t with
    | some c => rw [hp] at h; cases h
    | none =>
      rw [hp] at h
      cases fp with
      | true => cases h
      | false => cases h

theorem getLatest_err_elim {s : CatalogState} {opCtx : OperationContext}
    {l : LogicalSessionId} {st : Status} {s₀ : CatalogState}
    (h : getLatestOnSession s opCtx l = .err st s₀) :
    waitForStepUpToComplete s opCtx = .err st s₀ := by
  unfold getLatestOnSession at h
  cases hw : waitForStepUpToComplete s opCtx with
  | fatal => rw [hw] at h; cases h
  | blocked => rw [hw] at h; cases h
  | err e u => rw [hw] at h; cases h; rfl
  | ok u =>
    rw [hw] at h
    cases hs : sessFind s.coordinatorsBySession l with
    | none => rw [hs] at h; cases h
    | some m =>
      rw [hs] at h
      cases m with
      | nil => cases h
      | cons e rest => cases h

/-- C1: if the primary map already contains an entry for `(session,
txnNumber)`, an `insert` that proceeds past the step-up gate (`forStepUp`, or
the gate wait succeeding) hits the `invariant` and is a fatal failure; under
the precondition that no such entry exists the fatal branch is unreachable;
and in every state reachable by any sequence of operations the primary map
never contains two entries for the same `(session, txnNumber)` key. -/
theorem insert_duplicate_fatal_and_keys_unique :
    (∀ (s : CatalogState) (opCtx : OperationContext) (l : LogicalSessionId)
        (t : TxnNumber) (c c' : TransactionCoordinator) (f : Bool),
      primaryFind s l t = some c' →
      (f = true ∨ waitForStepUpToComplete s opCtx = .ok ()) →
      insert s opCtx l t c f = .fatal) ∧
    (∀ (s : CatalogState) (opCtx : OperationContext) (l : LogicalSessionId)
        (t : TxnNumber) (c : TransactionCoordinator) (f : Bool),
      primaryFind s l t = none →
      insert s opCtx l t c f ≠ .fatal) ∧
    (∀ s : CatalogState, Reachable s → (allKeys s).Nodup) := by
  refine ⟨?_, ?_, ?_⟩
  · intro s opCtx l t c c' f hp hgate
    have hfatal : insertLocked s l t c = .fatal :=
      (insertLocked_fatal_iff s l t c).mpr (by rw [hp]; rfl)
    rcases hgate with hf | hg
    · subst hf
      rw [insert_true_eq_locked, hfatal]
    · cases f with
      | true => rw [insert_true_eq_locked, hfatal]
      | false => rw [insert_false_gate_ok l t c hg, hfatal]
  · intro s opCtx l t c f hp hcontra
    have hfatal := insert_fatal_elim hcontra
    rw [insertLocked_fatal_iff] at hfatal
    rw [hp] at hfatal
    cases hfatal
  · intro s hreach
    exact WF_allKeys_nodup (Reachable_WF hreach)

/-- C1 witness: the duplicate-key insert on a concrete one-entry catalog is
fatal; the same insert on the empty catalog is not; reachable states have
unique keys. -/
theorem insert_duplicate_fatal_and_keys_unique_witness :
    insert catalogWithEntry opCtxOk 0 1 coordB false = .fatal ∧
    insert initialCatalog opCtxOk 0 1 coordB false ≠ .fatal ∧
    (allKeys initialCatalog).Nodup :=
  ⟨insert_duplicate_fatal_and_keys_unique.1 catalogWithEntry opCtxOk 0 1 coordB
      coordA false (by decide) (Or.inr (by decide)),
   insert_duplicate_fatal_and_keys_unique.2.1 initialCatalog opCtxOk 0 1 coordB
      false (by decide),
   insert_duplicate_fatal_and_keys_unique.2.2 initialCatalog
      Relation.ReflTransGen.refl⟩

/-- C2 counterexample: after `exitStepUp` stores a non-success status, a
subsequent `insert` with `isForStepUp = true` silently succeeds instead of
failing with the stored error, so the claim as stated (over every insert) is
false. -/
theorem exitStepUp_failure_stepUp_insert_succeeds :
    exitStepUp initialCatalog (.error 70) = .ok catalogFailed ∧
    Status.isOK (.error 70) = false ∧
    insert catalogFailed opCtxOk 0 1 coordA true =
      .ok { coordinatorsBySession := [(0, [(1, coordA)])]
            coordinatorsBySessionDefunct := []
            stepUpCompletionStatus := some (.error 70)
            completionContinuations := [(0, 1)] } := by
  refine ⟨by decide, by decide, by decide⟩

/-- C2 (amended): after `exitStepUp` stored a non-success status, every
subsequent gated call — `get`, `getLatestOnSession`, and `insert` with
`isForStepUp = false` — fails with an error carrying exactly the stored
status rather than blocking, returning not-found, or silently succeeding
(an `insert` with `isForStepUp = true` bypasses the gate). -/
theorem gate_failure_rejects_gated_calls (s₀ s : CatalogState)
    (opCtx : OperationContext) (l : LogicalSessionId) (t : TxnNumber)
    (c : TransactionCoordinator) (fp : Bool) {st : Status}
    (hex : exitStepUp s₀ st = .ok s) (hf : st.isOK = false) :
    insert s opCtx l t c false = .err st s ∧
    get s opCtx l t fp = .err st s ∧
    getLatestOnSession s opCtx l = .err st s := by
  have hg := exitStepUp_ok_gate hex
  have hw := waitForStepUp_gateFailed opCtx hg hf
  exact ⟨insert_false_gate_err l t c hw, get_gate_err l t fp hw,
    getLatest_gate_err l hw⟩

/-- C2 witness: the three gated calls on a concrete failed-recovery catalog
all fail with the stored status. -/
theorem gate_failure_rejects_gated_calls_witness :
    insert catalogFailed opCtxOk 0 1 coordA false =
      .err (.error 70) catalogFailed ∧
    get catalogFailed opCtxOk 0 1 false = .err (.error 70) catalogFailed ∧
    getLatestOnSession catalogFailed opCtxOk 0 =
      .err (.error 70) catalogFailed :=
  gate_failure_rejects_gated_calls initialCatalog catalogFailed opCtxOk 0 1
    coordA false (by decide) (by decide)

/-- C3: with the step-up gate resolved successfully, `getLatestOnSession`
returns not-found for a session with no entries, and for a session with at
least one entry returns the pair whose transaction number is the numerically
greatest among that session's entries. -/
theorem getLatestOnSession_greatest (s : CatalogState)
    (opCtx : OperationContext) (l : LogicalSessionId) (hwf : WF s)
    (hg : waitForStepUpToComplete s opCtx = .ok ()) :
    (sessFind s.coordinatorsBySession l = none →
      getLatestOnSession s opCtx l = .ok none) ∧
    (∀ m, sessFind s.coordinatorsBySession l = some m →
      ∃ t c, getLatestOnSession s opCtx l = .ok (some (t, c)) ∧
        txnFind m t = some c ∧ ∀ q ∈ m, q.1 ≤ t) := by
  constructor
  · intro hs
    exact getLatest_gate_ok_absent hg hs
  · intro m hs
    cases m with
    | nil => exact absurd rfl (hwf.innerNonempty (l, []) (sessFind_mem hs))
    | cons e rest =>
      obtain ⟨t0, c0⟩ := e
      refine ⟨t0, c0, getLatest_gate_ok_present hg hs, ?_, ?_⟩
      · simp [txnFind]
      · exact sorted_head_le
          (by simpa using hwf.innerSorted (l, (t0, c0) :: rest) (sessFind_mem hs))

/-- C3 witness: on the concrete catalog where session 7 holds transaction
numbers 3, 2, 1, the latest is (3, its coordinator); an unknown session is
not-found. -/
theorem getLatestOnSession_greatest_witness :
    getLatestOnSession catalog132 opCtxOk 8 = .ok none ∧
    (∃ t c, getLatestOnSession catalog132 opCtxOk 7 = .ok (some (t, c)) ∧
      txnFind [(3, coordB), (2, coordA), (1, coordA)] t = some c ∧
      ∀ q ∈ [(3, coordB), (2, coordA), (1, coordA)], q.1 ≤ t) := by
  have hwf : WF catalog132 := ⟨by decide, by decide, by decide⟩
  have hg : waitForStepUpToComplete catalog132 opCtxOk = .ok () := by decide
  exact ⟨(getLatestOnSession_greatest catalog132 opCtxOk 8 hwf hg).1 (by decide),
    (getLatestOnSession_greatest catalog132 opCtxOk 7 hwf hg).2 _ (by decide)⟩

/-- C4: `remove` of an absent key is a no-op on both maps (idempotent);
`remove` of a present key erases exactly that entry and no other, and erases
the session's entire sub-map exactly when that entry was the session's last;
and `insert` attaches a completion continuation capturing exactly its own
key, whose firing removes exactly that entry. -/
theorem remove_idempotent_and_exact (s : CatalogState) (l : LogicalSessionId)
    (t : TxnNumber) (hwf : WF s) :
    (∀ fp, primaryFind s l t = none →
      remove s l t fp =
        .ok { state := s
              signaledNoActiveCoordinators :=
                s.coordinatorsBySession.isEmpty }) ∧
    (∀ m c, sessFind s.coordinatorsBySession l = some m →
      txnFind m t = some c →
      ∃ r, remove s l t false = .ok r ∧
        (∀ l' t', primaryFind r.state l' t' =
          if l' = l ∧ t' = t then none else primaryFind s l' t') ∧
        (sessFind r.state.coordinatorsBySession l = none ↔
          ∀ q ∈ m, q.1 = t)) ∧
    (∀ (opCtx : OperationContext) (c : TransactionCoordinator) (f : Bool)
        (s' : CatalogState),
      insert s opCtx l t c f = .ok s' →
      s'.completionContinuations = (l, t) :: s.completionContinuations ∧
      ∃ r, completeCoordinator s' (l, t) false = .ok r ∧
        primaryFind r.state l t = none ∧
        (∀ l' t', ¬(l' = l ∧ t' = t) →
          primaryFind r.state l' t' = primaryFind s' l' t')) := by
  refine ⟨?_, ?_, ?_⟩
  · intro fp hp
    exact remove_absent s l t fp hp
  · intro m c hs ht
    have hmsor : TxnMapSorted m := by
      simpa using hwf.innerSorted (l, m) (sessFind_mem hs)
    refine ⟨_, remove_present s l t false hs ht
        (fun h => absurd h Bool.false_ne_true), ?_, ?_⟩
    · intro l' t'
      exact outerFind_removeErasedOuter t hwf hs l' t'
    · constructor
      · intro hnone
        by_cases hemp : (txnErase m t).isEmpty = true
        · rcases (txnErase_eq_nil_iff m t).mp (List.isEmpty_iff.mp hemp) with
            hm | ⟨c0, hm⟩
          · rw [hm] at ht
            cases ht
          · rw [hm]
            intro q hq
            rcases hq with _ | ⟨_, hq⟩
            · rfl
            · cases hq
        · exfalso
          have hfound :
              sessFind (removeErasedOuter s l m t) l = some (txnErase m t) := by
            unfold removeErasedOuter
            rw [if_neg hemp, sessFind_sessSet_self]
          rw [show sessFind (removeErasedOuter s l m t) l = none from hnone]
            at hfound
          cases hfound
      · intro hall
        have hemp : txnErase m t = [] := txnErase_nil_of_all_eq hmsor t hall
        show sessFind (removeErasedOuter s l m t) l = none
        unfold removeErasedOuter
        rw [if_pos (by rw [hemp]; rfl), sessFind_sessErase hwf.outerNodup,
          if_pos rfl]
  · intro opCtx c f s' hins
    have hlock := insert_ok_elim hins
    have hcont := (insertLocked_preserves hlock).2.2
    refine ⟨hcont, ?_⟩
    have hwf' : WF s' := WF_insertLocked hwf hlock
    have hp' : primaryFind s' l t = some c := by
      rw [primaryFind_insertLocked hlock l t]
      simp
    obtain ⟨m', hs', ht'⟩ := primaryFind_some_elim hp'
    have hwf'' :
        WF { s' with
          completionContinuations := s'.completionContinuations.erase (l, t) } :=
      ⟨hwf'.outerNodup, hwf'.innerSorted, hwf'.innerNonempty⟩
    have hs'' :
        sessFind ({ s' with
          completionContinuations :=
            s'.completionContinuations.erase (l, t) } :
            CatalogState).coordinatorsBySession l = some m' := hs'
    have hrm := remove_present
      { s' with
        completionContinuations := s'.completionContinuations.erase (l, t) }
      l t false hs'' ht' (fun h => absurd h Bool.false_ne_true)
    refine ⟨_, hrm, ?_, ?_⟩
    · have hfind := outerFind_removeErasedOuter t hwf'' hs'' l t
      rw [if_pos ⟨rfl, rfl⟩] at hfind
      exact hfind
    · intro l' t' hne
      have hfind := outerFind_removeErasedOuter t hwf'' hs'' l' t'
      rw [if_neg hne] at hfind
      exact hfind

/-- C4 witness: removing the absent key (0, 1) from the empty open catalog is
a no-op; removing it from the one-entry catalog erases exactly that entry and
prunes session 0; inserting at (0, 1) attaches the continuation for (0, 1)
and completing it removes exactly that entry. -/
theorem remove_idempotent_and_exact_witness :
    (remove catalogOpen 0 1 false =
      .ok { state := catalogOpen, signaledNoActiveCoordinators := true }) ∧
    (∃ r, remove catalogWithEntry 0 1 false = .ok r ∧
      (∀ l' t', primaryFind r.state l' t' =
        if l' = 0 ∧ t' = 1 then none
        else primaryFind catalogWithEntry l' t') ∧
      (sessFind r.state.coordinatorsBySession 0 = none ↔
        ∀ q ∈ [(1, coordA)], q.1 = 1)) ∧
    (catalogWithEntry.completionContinuations =
        (0, 1) :: catalogOpen.completionContinuations ∧
      ∃ r, completeCoordinator catalogWithEntry (0, 1) false = .ok r ∧
        primaryFind r.state 0 1 = none ∧
        (∀ l' t', ¬(l' = 0 ∧ t' = 1) →
          primaryFind r.state l' t' = primaryFind catalogWithEntry l' t')) := by
  have hwfOpen : WF catalogOpen := ⟨by decide, by decide, by decide⟩
  have hwfEntry : WF catalogWithEntry := ⟨by decide, by decide, by decide⟩
  exact ⟨(remove_idempotent_and_exact catalogOpen 0 1 hwfOpen).1 false
      (by decide),
    (remove_idempotent_and_exact catalogWithEntry 0 1 hwfEntry).2.1
      [(1, coordA)] coordA (by decide) (by decide),
    (remove_idempotent_and_exact catalogOpen 0 1 hwfOpen).2.2 opCtxOk coordA
      false catalogWithEntry (by decide)⟩

/-- C5: one iteration of `join`'s wait loop returns exactly when the primary
map is empty; while entries remain it times out on the fixed 5-second
interval and logs the diagnostic dump of the outstanding sessions and
transaction numbers before waiting again; and a completed `remove` signals
the drain condition variable exactly when the primary map is empty
afterwards — in particular whenever its removal made the map empty. -/
theorem join_blocks_until_empty (s : CatalogState) :
    (joinCheck s = .returns ↔ s.coordinatorsBySession = []) ∧
    (s.coordinatorsBySession ≠ [] →
      joinCheck s = .waitsAndLogs joinWaitSeconds (catalogToString s)) ∧
    joinWaitSeconds = 5 ∧
    (∀ l t fp r, remove s l t fp = .ok r →
      (r.signaledNoActiveCoordinators = true ↔
        r.state.coordinatorsBySession = [])) := by
  refine ⟨?_, ?_, rfl, ?_⟩
  · unfold joinCheck
    by_cases hemp : s.coordinatorsBySession.isEmpty = true
    · rw [if_pos hemp]
      simp [List.isEmpty_iff.mp hemp]
    · rw [if_neg hemp]
      constructor
      · intro hh
        cases hh
      · intro hh
        rw [hh] at hemp
        exact absurd rfl hemp
  · intro hne
    unfold joinCheck
    rw [if_neg (fun hh => hne (List.isEmpty_iff.mp hh))]
  · intro l t fp r h
    rw [remove_signal h]
    exact ⟨fun hh => List.isEmpty_iff.mp hh, fun hh => by rw [hh]; rfl⟩

/-- C5 witness: on the one-entry catalog the join check waits and logs the
dump; removing that entry drains the map and signals the drain condition. -/
theorem join_blocks_until_empty_witness :
    joinCheck catalogWithEntry =
      .waitsAndLogs joinWaitSeconds (catalogToString catalogWithEntry) ∧
    ∃ r, remove catalogWithEntry 0 1 false = .ok r ∧
      (r.signaledNoActiveCoordinators = true ↔
        r.state.coordinatorsBySession = []) := by
  have hr : remove catalogWithEntry 0 1 false =
      .ok { state := { catalogWithEntry with coordinatorsBySession := [] }
            signaledNoActiveCoordinators := true } := by decide
  exact ⟨(join_blocks_until_empty catalogWithEntry).2.1 (by decide),
    _, hr, (join_blocks_until_empty catalogWithEntry).2.2.2 0 1 false _ hr⟩

/-- C6: a second `exitStepUp` on the same catalog instance is a fatal
invariant failure, and once the step-up gate's status is stored no sequence
of subsequent operations ever changes it. -/
theorem exitStepUp_at_most_once (s : CatalogState) (st st' : Status) :
    (s.stepUpCompletionStatus = some st' → exitStepUp s st = .fatal) ∧
    (∀ s'' : CatalogState, Relation.ReflTransGen Step s s'' →
      s.stepUpCompletionStatus = some st' →
      s''.stepUpCompletionStatus = some st') := by
  constructor
  · intro hg
    exact exitStepUp_of_some st hg
  · intro s'' hsteps hg
    induction hsteps with
    | refl => exact hg
    | tail _ hstep ih => exact step_gate_monotone hstep ih

/-- C6 witness: a second `exitStepUp` on the concrete open catalog is fatal,
and an insert step leaves the stored status unchanged. -/
theorem exitStepUp_at_most_once_witness :
    exitStepUp catalogOpen (.error 1) = .fatal ∧
    catalogWithEntry.stepUpCompletionStatus = some .ok := by
  have hstep : Step catalogOpen catalogWithEntry :=
    Step.ofInsert catalogOpen opCtxOk 0 1 coordA false catalogWithEntry
      (by decide)
  exact ⟨(exitStepUp_at_most_once catalogOpen (.error 1) .ok).1 (by decide),
    (exitStepUp_at_most_once catalogOpen (.error 1) .ok).2 catalogWithEntry
      (Relation.ReflTransGen.single hstep) (by decide)⟩

/-- C7: with the gate resolved successfully, `get` returns the primary-map
entry when present; when absent it falls back to the defunct tier exactly
when the retention fail point is on and returns not-found otherwise; hence
after a successfully decided coordinator is removed with retention on, `get`
still returns the handle via the fallback tier, and with retention off it
returns not-found. -/
theorem get_with_defunct_fallback (s : CatalogState)
    (opCtx : OperationContext) (l : LogicalSessionId) (t : TxnNumber)
    (hwf : WF s) (hg : waitForStepUpToComplete s opCtx = .ok ()) :
    (∀ c, primaryFind s l t = some c →
      ∀ fp, get s opCtx l t fp = .ok (some c)) ∧
    (primaryFind s l t = none →
      get s opCtx l t true = .ok (defunctFind s l t) ∧
      get s opCtx l t false = .ok none) ∧
    (∀ m c, sessFind s.coordinatorsBySession l = some m →
      txnFind m t = some c → c.decisionReady = true →
      c.decisionStatus.isOK = true →
      ∃ r, remove s l t true = .ok r ∧
        get r.state opCtx l t true = .ok (some c)) ∧
    (∀ m c, sessFind s.coordinatorsBySession l = some m →
      txnFind m t = some c →
      ∃ r, remove s l t false = .ok r ∧
        get r.state opCtx l t false = .ok none) := by
  refine ⟨?_, ?_, ?_, ?_⟩
  · intro c hp fp
    exact get_gate_ok_hit fp hg hp
  · intro hp
    exact ⟨get_gate_ok_fallback hg hp, get_gate_ok_miss hg hp⟩
  · intro m c hs ht hrd hok
    have hrm := remove_present s l t true hs ht (fun _ => hrd)
    refine ⟨_, hrm, ?_⟩
    show get
        { s with
          coordinatorsBySession := removeErasedOuter s l m t
          coordinatorsBySessionDefunct := removeRetainedDefunct s l t c true }
        opCtx l t true = .ok (some c)
    have hgate' : waitForStepUpToComplete
        { s with
          coordinatorsBySession := removeErasedOuter s l m t
          coordinatorsBySessionDefunct := removeRetainedDefunct s l t c true }
        opCtx = .ok () := waitForStepUp_ok_of_gate_eq hg rfl
    have hp' : primaryFind
        { s with
          coordinatorsBySession := removeErasedOuter s l m t
          coordinatorsBySessionDefunct := removeRetainedDefunct s l t c true }
        l t = none := by
      have hfind := outerFind_removeErasedOuter t hwf hs l t
      rw [if_pos ⟨rfl, rfl⟩] at hfind
      exact hfind
    rw [get_gate_ok_fallback hgate' hp']
    refine congrArg Outcome.ok ?_
    show outerFind (removeRetainedDefunct s l t c true) l t = some c
    unfold removeRetainedDefunct
    rw [hrd, hok, if_pos (show (true && (true && true)) = true from rfl)]
    exact outerFind_sessSet_txnSet _ l t c
  · intro m c hs ht
    have hrm := remove_present s l t false hs ht
      (fun h => absurd h Bool.false_ne_true)
    refine ⟨_, hrm, ?_⟩
    show get
        { s with
          coordinatorsBySession := removeErasedOuter s l m t
          coordinatorsBySessionDefunct := removeRetainedDefunct s l t c false }
        opCtx l t false = .ok none
    have hgate' : waitForStepUpToComplete
        { s with
          coordinatorsBySession := removeErasedOuter s l m t
          coordinatorsBySessionDefunct := removeRetainedDefunct s l t c false }
        opCtx = .ok () := waitForStepUp_ok_of_gate_eq hg rfl
    have hp' : primaryFind
        { s with
          coordinatorsBySession := removeErasedOuter s l m t
          coordinatorsBySessionDefunct := removeRetainedDefunct s l t c false }
        l t = none := by
      have hfind := outerFind_removeErasedOuter t hwf hs l t
      rw [if_pos ⟨rfl, rfl⟩] at hfind
      exact hfind
    exact get_gate_ok_miss hgate' hp'

/-- C7 witness: on the concrete one-entry catalog, `get` returns the entry;
after removal with retention on, `get` still returns it via the defunct
tier; after removal with retention off, `get` returns not-found. -/
theorem get_with_defunct_fallback_witness :
    get catalogWithEntry opCtxOk 0 1 false = .ok (some coordA) ∧
    (∃ r, remove catalogWithEntry 0 1 true = .ok r ∧
      get r.state opCtxOk 0 1 true = .ok (some coordA)) ∧
    (∃ r, remove catalogWithEntry 0 1 false = .ok r ∧
      get r.state opCtxOk 0 1 false = .ok none) := by
  have hwf : WF catalogWithEntry := ⟨by decide, by decide, by decide⟩
  have hg : waitForStepUpToComplete catalogWithEntry opCtxOk = .ok () := by
    decide
  exact ⟨(get_with_defunct_fallback catalogWithEntry opCtxOk 0 1 hwf hg).1
      coordA (by decide) false,
    (get_with_defunct_fallback catalogWithEntry opCtxOk 0 1 hwf hg).2.2.1
      [(1, coordA)] coordA (by decide) (by decide) (by decide) (by decide),
    (get_with_defunct_fallback catalogWithEntry opCtxOk 0 1 hwf hg).2.2.2
      [(1, coordA)] coordA (by decide) (by decide)⟩

/-- C8: when `remove` finds the key present with the retention fail point on
(and the decision future resolved), it copies the handle into the defunct
tier (and erases the key from the primary map) exactly when the decision
resolved successfully; a coordinator whose decision resolved with an error
is erased but not retained. -/
theorem remove_retains_success_only (s : CatalogState)
    (l : LogicalSessionId) (t : TxnNumber) (hwf : WF s) :
    ∀ m c, sessFind s.coordinatorsBySession l = some m →
      txnFind m t = some c → c.decisionReady = true →
      ∃ r, remove s l t true = .ok r ∧
        primaryFind r.state l t = none ∧
        (c.decisionStatus.isOK = true → defunctFind r.state l t = some c) ∧
        (c.decisionStatus.isOK = false →
          r.state.coordinatorsBySessionDefunct =
            s.coordinatorsBySessionDefunct) := by
  intro m c hs ht hrd
  have hrm := remove_present s l t true hs ht (fun _ => hrd)
  refine ⟨_, hrm, ?_, ?_, ?_⟩
  · have hfind := outerFind_removeErasedOuter t hwf hs l t
    rw [if_pos ⟨rfl, rfl⟩] at hfind
    exact hfind
  · intro hok
    show outerFind (removeRetainedDefunct s l t c true) l t = some c
    unfold removeRetainedDefunct
    rw [hrd, hok, if_pos (show (true && (true && true)) = true from rfl)]
    exact outerFind_sessSet_txnSet _ l t c
  · intro hok
    show removeRetainedDefunct s l t c true = s.coordinatorsBySessionDefunct
    unfold removeRetainedDefunct
    rw [hrd, hok]
    rfl

/-- C8 witness: removing a success-decided coordinator with retention on
retains it in the defunct tier; removing an error-decided coordinator leaves
the defunct tier unchanged. -/
theorem remove_retains_success_only_witness :
    (∃ r, remove catalogWithEntry 0 1 true = .ok r ∧
      primaryFind r.state 0 1 = none ∧
      (coordA.decisionStatus.isOK = true →
        defunctFind r.state 0 1 = some coordA) ∧
      (coordA.decisionStatus.isOK = false →
        r.state.coordinatorsBySessionDefunct =
          catalogWithEntry.coordinatorsBySessionDefunct)) ∧
    (∃ r, remove catalogWithFailedCoord 0 1 true = .ok r ∧
      primaryFind r.state 0 1 = none ∧
      (coordFailed.decisionStatus.isOK = true →
        defunctFind r.state 0 1 = some coordFailed) ∧
      (coordFailed.decisionStatus.isOK = false →
        r.state.coordinatorsBySessionDefunct =
          catalogWithFailedCoord.coordinatorsBySessionDefunct)) := by
  have hwf1 : WF catalogWithEntry := ⟨by decide, by decide, by decide⟩
  have hwf2 : WF catalogWithFailedCoord := ⟨by decide, by decide, by decide⟩
  exact ⟨remove_retains_success_only catalogWithEntry 0 1 hwf1 [(1, coordA)]
      coordA (by decide) (by decide) (by decide),
    remove_retains_success_only catalogWithFailedCoord 0 1 hwf2
      [(1, coordFailed)] coordFailed (by decide) (by decide) (by decide)⟩

/-- C9: with the retention fail point on and the key present, a coordinator
whose decision future has not resolved makes `remove` a fatal invariant
failure (not a skipped retention); under the precondition that every
coordinator found at the key has a resolved decision, the fatal branch is
unreachable. -/
theorem remove_requires_ready_decision (s : CatalogState)
    (l : LogicalSessionId) (t : TxnNumber) :
    (∀ m c, sessFind s.coordinatorsBySession l = some m →
      txnFind m t = some c → c.decisionReady = false →
      remove s l t true = .fatal) ∧
    ((∀ c, primaryFind s l t = some c → c.decisionReady = true) →
      ∀ fp, remove s l t fp ≠ .fatal) := by
  constructor
  · intro m c hs ht hnr
    exact remove_fatal_of_not_ready s l t hs ht hnr
  · intro hready fp
    cases hp : primaryFind s l t with
    | none =>
      rw [remove_absent s l t fp hp]
      simp
    | some c =>
      obtain ⟨m, hs, ht⟩ := primaryFind_some_elim hp
      rw [remove_present s l t fp hs ht (fun _ => hready c hp)]
      simp

/-- C9 witness: removing the pending-decision coordinator with the fail
point on is fatal; removing the resolved one is not. -/
theorem remove_requires_ready_decision_witness :
    remove catalogWithPending 0 1 true = .fatal ∧
    remove catalogWithEntry 0 1 true ≠ .fatal :=
  ⟨(remove_requires_ready_decision catalogWithPending 0 1).1 [(1, coordPending)]
      coordPending (by decide) (by decide) (by decide),
   (remove_requires_ready_decision catalogWithEntry 0 1).2
      (by decide) true⟩

/-- C10: a gated call that fails at the step-up gate (recovery failure or
caller cancellation) leaves the catalog unchanged — the thrown error carries
exactly the pre-call state, so an erroring `insert` adds no entry and
attaches no continuation; and an `insert` with `isForStepUp = true` never
waits on the gate: it is independent of the operation context and never
blocks or errors. -/
theorem gate_error_leaves_catalog_unchanged (s : CatalogState)
    (opCtx : OperationContext) (l : LogicalSessionId) (t : TxnNumber)
    (c : TransactionCoordinator) :
    (∀ st s₀, waitForStepUpToComplete s opCtx = .err st s₀ →
      insert s opCtx l t c false = .err st s₀ ∧ s₀ = s) ∧
    (∀ st s₀ fp, get s opCtx l t fp = .err st s₀ → s₀ = s) ∧
    (∀ st s₀, getLatestOnSession s opCtx l = .err st s₀ → s₀ = s) ∧
    (∀ opCtx' : OperationContext,
      insert s opCtx l t c true = insert s opCtx' l t c true) ∧
    insert s opCtx l t c true ≠ .blocked ∧
    (∀ st s₀, insert s opCtx l t c true ≠ .err st s₀) := by
  refine ⟨?_, ?_, ?_, ?_, ?_, ?_⟩
  · intro st s₀ hw
    exact ⟨insert_false_gate_err l t c hw, waitForStepUp_err_state hw⟩
  · intro st s₀ fp h
    exact waitForStepUp_err_state (get_err_elim h)
  · intro st s₀ h
    exact waitForStepUp_err_state (getLatest_err_elim h)
  · intro opCtx'
    rw [insert_true_eq_locked, insert_true_eq_locked]
  · rw [insert_true_eq_locked]
    rcases insertLocked_cases s l t c with h | ⟨s', h⟩ <;> rw [h] <;> simp
  · intro st s₀
    rw [insert_true_eq_locked]
    rcases insertLocked_cases s l t c with h | ⟨s', h⟩ <;> rw [h] <;> simp

/-- C10 witness: an insert failing at the gate (failed recovery, and a
cancelled caller on an unresolved gate) returns the error with the unchanged
catalog; a for-step-up insert on the failed catalog neither blocks nor
errors. -/
theorem gate_error_leaves_catalog_unchanged_witness :
    (insert catalogFailed opCtxOk 0 1 coordA false =
        .err (.error 70) catalogFailed ∧
      catalogFailed = catalogFailed) ∧
    (insert initialCatalog opCtxCancelled 0 1 coordA false =
        .err (.error 11) initialCatalog ∧
      initialCatalog = initialCatalog) ∧
    insert catalogFailed opCtxOk 0 1 coordA true ≠ .blocked :=
  ⟨(gate_error_leaves_catalog_unchanged catalogFailed opCtxOk 0 1 coordA).1
      (.error 70) catalogFailed (by decide),
   (gate_error_leaves_catalog_unchanged initialCatalog opCtxCancelled 0 1
      coordA).1 (.error 11) initialCatalog (by decide),
   (gate_error_leaves_catalog_unchanged catalogFailed opCtxOk 0 1
      coordA).2.2.2.2.1⟩

end TxnCatalog
